import Mathlib

/-!
Verification of the BloomFilter repository (src/BloomFilter.py) against its
natural-language specification.

The Python class `BloomFilter` is embedded shallowly:
* the filter object becomes the structure `BloomFilter` below, with the five
  attributes `_num_words`, `_num_bits`, `_num_hash`, `_false_positive_prob`
  and `_bit_array`;
* the static parameter-math methods (`_calculate_num_bits`,
  `_calculate_num_hash`, `_calculate_false_positive`), which operate on Python
  floats, are modelled over the real numbers;
* the md5 digest comes from the external `hashlib` library, so hashing is
  parameterised by an arbitrary digest function `String → List ℕ` producing
  the 32 hexadecimal digits of the 128-bit digest (each entry `< 16`);
* dynamically-typed arguments and the `TypeError` / `ValueError` exceptions
  raised by the validators are modelled by the `PyVal` and `PyError` types and
  operations returning `Except PyError _`; the mutating methods are modelled
  in state-passing style, returning the new filter state alongside the result.
-/

/-- The filter object: the five attributes set by `BloomFilter.__init__`. -/
structure BloomFilter where
  num_words : ℕ
  num_bits : ℕ
  num_hash : ℕ
  false_positive_prob : ℝ
  bit_array : List Bool

namespace BloomFilter

/-- Python `int(...)` on a float: truncation toward zero. -/
noncomputable def intTrunc (x : ℝ) : ℤ :=
  if 0 ≤ x then ⌊x⌋ else -⌊-x⌋

/-- `BloomFilter._calculate_num_bits`: `math.ceil(-(n * math.log(p)) / (math.log(2)**2))`. -/
noncomputable def calculate_num_bits (n : ℕ) (p : ℝ) : ℤ :=
  ⌈(-((n : ℝ) * Real.log p)) / (Real.log 2) ^ 2⌉

/-- `BloomFilter._calculate_num_hash`: `int((m/n) * math.log(2))`. -/
noncomputable def calculate_num_hash (n m : ℕ) : ℤ :=
  intTrunc (((m : ℝ) / (n : ℝ)) * Real.log 2)

/-- `BloomFilter._calculate_false_positive`: `math.exp(-(m/n) * (math.log(2)**2))`. -/
noncomputable def calculate_false_positive (n m : ℕ) : ℝ :=
  Real.exp (-((m : ℝ) / (n : ℝ)) * (Real.log 2) ^ 2)

/-- `BloomFilter.__init__` after its two validations have passed: stores
`num_words` and `num_bits`, derives the false-positive probability and the
hash count, and fills the bit array with `num_bits` copies of `False`.
(The derived hash count is a Python `int`; for validated inputs it is
non-negative, so it is stored here as the `ℕ` given by `Int.toNat`.) -/
noncomputable def init (num_words num_bits : ℕ) : BloomFilter where
  num_words := num_words
  num_bits := num_bits
  num_hash := (calculate_num_hash num_words num_bits).toNat
  false_positive_prob := calculate_false_positive num_words num_bits
  bit_array := List.replicate num_bits false

/-- `BloomFilter.with_false_positive_constraint` after validation: computes
`num_bits = _calculate_num_bits(num_words, probability)` and delegates to
`__init__`. -/
noncomputable def with_fpc (num_words : ℕ) (probability : ℝ) : BloomFilter :=
  init num_words (calculate_num_bits num_words probability).toNat

/-- `int(hexstring, 16)`: the value of a list of hexadecimal digits. -/
def hexVal (ds : List ℕ) : ℕ :=
  ds.foldl (fun a d => 16 * a + d) 0

/-- `BloomFilter._get_hashes`: with `hex` the 32 hex digits of the md5 digest
of the word, `h1 = int(hex[:15], 16)`, `h2 = int(hex[16:], 16)`, and the
result is `[(h1 + i*h2) % self._num_bits for i in range(1, self.num_hash+1)]`.
The digest itself comes from `hashlib.md5`, modelled by the parameter
`digest`. -/
def get_hashes (digest : String → List ℕ) (f : BloomFilter) (word : String) :
    List ℕ :=
  let h1 := hexVal ((digest word).take 15)
  let h2 := hexVal ((digest word).drop 16)
  (List.range' 1 f.num_hash).map (fun i => (h1 + i * h2) % f.num_bits)

/-- The bit-setting loop of `BloomFilter.add`:
`for i in bit_indices: self._bit_array[i] = True`. -/
def setBits (arr : List Bool) (idxs : List ℕ) : List Bool :=
  idxs.foldl (fun a i => a.set i true) arr

/-- `BloomFilter.add` after word validation: sets each derived bit index. -/
def add (digest : String → List ℕ) (f : BloomFilter) (word : String) :
    BloomFilter :=
  { f with bit_array := setBits f.bit_array (get_hashes digest f word) }

/-- `BloomFilter.query` after word validation:
`all([self._bit_array[i] for i in bit_indices])`. -/
def query (digest : String → List ℕ) (f : BloomFilter) (word : String) :
    Bool :=
  (get_hashes digest f word).all (fun i => f.bit_array.getD i false)

/-- A sequence of inserts, folded left to right. -/
def addAll (digest : String → List ℕ) (f : BloomFilter) (words : List String) :
    BloomFilter :=
  words.foldl (add digest) f

/-- `BloomFilter.__str__`: the read-only description string. Python's
rendering `str(float)` of the stored false-positive probability is not
modellable bit-for-bit, so it is abstracted by the parameter `showFloat`. -/
def strDesc (showFloat : ℝ → String) (f : BloomFilter) : String :=
  "Word Capacity = " ++ toString f.num_words ++ "\n"
    ++ "Number of bits = " ++ toString f.num_bits ++ "\n"
    ++ "False positive probability = " ++ showFloat f.false_positive_prob

/-- A computable stand-in for the md5 hex digest, used only to check the
theorems on concrete inputs: 32 hex digits derived from the word's length. -/
def sampleDigest (s : String) : List ℕ :=
  (List.range 32).map (fun i => (s.length * (i + 1) + i) % 16)

/-- A concrete filter state used to check the theorems on concrete inputs. -/
def sampleFilter : BloomFilter :=
  ⟨100, 8, 2, 0, List.replicate 8 false⟩

/-- A concrete filter state with hash count zero. -/
def sampleFilter0 : BloomFilter :=
  ⟨100, 8, 0, 0, List.replicate 8 false⟩

end BloomFilter

/-- Dynamically-typed Python values as they reach the validators: integers,
floats (modelled as rationals), strings, or anything else (`pyNone`). -/
inductive PyVal where
  | int : ℤ → PyVal
  | float : ℚ → PyVal
  | str : String → PyVal
  | pyNone : PyVal

/-- The exceptions raised by the validators: Python `TypeError` or
`ValueError`, each carrying its message. The spec's single `InvalidArgument`
error kind abstracts both; the message is the distinguishing reason. -/
inductive PyError where
  | typeError : String → PyError
  | valueError : String → PyError

namespace BloomFilter

/-- `BloomFilter._validate_num_words`. In Python the validator returns
`None` and control continues with the same variable; here it returns the
validated integer. -/
def validate_num_words : PyVal → Except PyError ℤ
  | .int n =>
      if n ≤ 0 then .error (.valueError "Number of words should be positive")
      else .ok n
  | _ => .error (.typeError "Number of words should be an integer")

/-- `BloomFilter._validate_num_bits`; returns the validated integer. -/
def validate_num_bits : PyVal → Except PyError ℤ
  | .int m =>
      if m ≤ 0 then
        .error (.valueError "Length of bit array should be positive")
      else .ok m
  | _ => .error (.typeError "Length of bit array should be an integer")

/-- `BloomFilter._validate_probability`. A Python `int` is also an instance
of `numbers.Number`, so both `int` and `float` pass the type check and are
then range-checked; returns the validated value as a rational. -/
def validate_probability : PyVal → Except PyError ℚ
  | .int z =>
      if (z : ℚ) ≤ 0 ∨ 1 ≤ (z : ℚ) then
        .error (.valueError "Probability should be a number in (0,1)")
      else .ok (z : ℚ)
  | .float q =>
      if q ≤ 0 ∨ 1 ≤ q then
        .error (.valueError "Probability should be a number in (0,1)")
      else .ok q
  | _ => .error (.typeError "Probability should be a number")

/-- `BloomFilter._validate_word`; returns the validated string. -/
def validate_word : PyVal → Except PyError String
  | .str s => .ok s
  | _ => .error (.typeError "Word should be a string")

/-- `BloomFilter.__init__` on dynamically-typed arguments: validates
`num_words`, then `num_bits`, then builds the filter. -/
noncomputable def initV (num_words num_bits : PyVal) :
    Except PyError BloomFilter :=
  match validate_num_words num_words with
  | .error e => .error e
  | .ok n =>
    match validate_num_bits num_bits with
    | .error e => .error e
    | .ok m => .ok (init n.toNat m.toNat)

/-- `BloomFilter.with_false_positive_constraint` on dynamically-typed
arguments: validates both arguments, computes
`num_bits = _calculate_num_bits(num_words, probability)` and delegates to
`__init__` (which re-validates). -/
noncomputable def with_fpcV (num_words probability : PyVal) :
    Except PyError BloomFilter :=
  match validate_num_words num_words with
  | .error e => .error e
  | .ok n =>
    match validate_probability probability with
    | .error e => .error e
    | .ok p => initV (.int n) (.int (calculate_num_bits n.toNat (p : ℝ)))

/-- `BloomFilter.add` in state-passing style: validates the word, then sets
the derived bits; when the validator raises, the state is unchanged. -/
def addV (digest : String → List ℕ) (f : BloomFilter) (word : PyVal) :
    BloomFilter × Except PyError Unit :=
  match validate_word word with
  | .error e => (f, .error e)
  | .ok s => (add digest f s, .ok ())

/-- `BloomFilter.query` in state-passing style: validates the word, reads
the bit array, and leaves the state untouched. -/
def queryV (digest : String → List ℕ) (f : BloomFilter) (word : PyVal) :
    BloomFilter × Except PyError Bool :=
  match validate_word word with
  | .error e => (f, .error e)
  | .ok s => (f, .ok (query digest f s))

/-- The `h1` actually computed by `_get_hashes`: `int(hexdigest[:15], 16)`,
the value of the first 15 of the 32 hex digits. -/
def codeH1 (ds : List ℕ) : ℕ :=
  hexVal (ds.take 15)

/-- Written from the spec's words for comparison ("split the digest into two
halves ... `h1` (from the first half)"): the value of the first half, i.e.
the first 16 of the 32 hex digits. -/
def specFirstHalf (ds : List ℕ) : ℕ :=
  hexVal (ds.take 16)

/-- Written from the spec's words for comparison: the hash positions with
`h1` taken as the first half of the digest (`specFirstHalf`), everything
else as in `_get_hashes`. -/
def spec_get_hashes (digest : String → List ℕ) (f : BloomFilter)
    (word : String) : List ℕ :=
  let h1 := specFirstHalf (digest word)
  let h2 := hexVal ((digest word).drop 16)
  (List.range' 1 f.num_hash).map (fun i => (h1 + i * h2) % f.num_bits)

/-- The 32 hex digits of `hashlib.md5("hello".encode()).hexdigest()`, which
is `5d41402abc4b2a76b9719d911017c592`. -/
def md5hello : List ℕ :=
  [5, 13, 4, 1, 4, 0, 2, 10, 11, 12, 4, 11, 2, 10, 7, 6,
   11, 9, 7, 1, 9, 13, 9, 1, 1, 0, 1, 7, 12, 5, 9, 2]

end BloomFilter

namespace BloomFilter

theorem setBits_cons (arr : List Bool) (i : ℕ) (l : List ℕ) :
    setBits arr (i :: l) = setBits (arr.set i true) l := rfl

theorem length_setBits (l : List ℕ) (arr : List Bool) :
    (setBits arr l).length = arr.length := by
  induction l generalizing arr with
  | nil => rfl
  | cons i l ih => rw [setBits_cons, ih, List.length_set]

theorem getElem?_setBits (l : List ℕ) (arr : List Bool) (j : ℕ) :
    (setBits arr l)[j]? =
      if j ∈ l ∧ j < arr.length then some true else arr[j]? := by
  induction l generalizing arr with
  | nil => simp [setBits]
  | cons i l ih =>
    rw [setBits_cons, ih, List.length_set]
    by_cases hl : j ∈ l
    · by_cases hlt : j < arr.length
      · simp [hl, hlt]
      · have h1 : arr[j]? = none := by
          simpa using List.getElem?_eq_none (l := arr) (by omega)
        have h2 : (arr.set i true)[j]? = none := by
          simpa using List.getElem?_eq_none (l := arr.set i true)
            (by simpa [List.length_set] using (by omega : arr.length ≤ j))
        simp [hl, hlt, h1, h2]
    · by_cases hji : i = j
      · subst hji
        by_cases hlt : i < arr.length
        · simp [hl, hlt, List.getElem?_set]
        · have h1 : arr[i]? = none := by
            simpa using List.getElem?_eq_none (l := arr) (by omega)
          simp [hl, hlt, List.getElem?_set, h1]
      · have hji2 : ¬j = i := fun he => hji he.symm
        simp [hl, hji, hji2, List.getElem?_set]

theorem getD_setBits (l : List ℕ) (arr : List Bool) (j : ℕ) :
    (setBits arr l).getD j false =
      if j ∈ l ∧ j < arr.length then true else arr.getD j false := by
  rw [List.getD_eq_getElem?_getD, List.getD_eq_getElem?_getD, getElem?_setBits]
  by_cases h : j ∈ l ∧ j < arr.length
  · simp only [if_pos h]
    rfl
  · simp only [if_neg h]

theorem getD_setBits_of_true (l : List ℕ) (arr : List Bool) (j : ℕ)
    (h : arr.getD j false = true) : (setBits arr l).getD j false = true := by
  rw [getD_setBits]
  by_cases hc : j ∈ l ∧ j < arr.length
  · rw [if_pos hc]
  · rw [if_neg hc]
    exact h

theorem getD_setBits_of_mem (l : List ℕ) (arr : List Bool) (j : ℕ)
    (hm : j ∈ l) (hj : j < arr.length) :
    (setBits arr l).getD j false = true := by
  rw [getD_setBits, if_pos ⟨hm, hj⟩]

theorem setBits_setBits (arr : List Bool) (p : List ℕ) :
    setBits (setBits arr p) p = setBits arr p := by
  apply List.ext_getElem?
  intro j
  rw [getElem?_setBits, getElem?_setBits, length_setBits]
  by_cases h : j ∈ p ∧ j < arr.length
  · simp only [if_pos h]
  · simp only [if_neg h]

theorem get_hashes_lt (digest : String → List ℕ) (f : BloomFilter)
    (w : String) (h : 0 < f.num_bits) :
    ∀ j ∈ get_hashes digest f w, j < f.num_bits := by
  intro j hj
  simp only [get_hashes, List.mem_map] at hj
  obtain ⟨i, _, rfl⟩ := hj
  exact Nat.mod_lt _ h

theorem get_hashes_add (digest d2 : String → List ℕ) (f : BloomFilter)
    (w w2 : String) :
    get_hashes digest (add d2 f w2) w = get_hashes digest f w := rfl

theorem add_bit_array (digest : String → List ℕ) (f : BloomFilter)
    (w : String) :
    (add digest f w).bit_array = setBits f.bit_array (get_hashes digest f w) :=
  rfl

theorem query_add_self (digest : String → List ℕ) (f : BloomFilter)
    (w : String) (hlen : f.bit_array.length = f.num_bits)
    (hpos : 0 < f.num_bits) :
    query digest (add digest f w) w = true := by
  rw [query, List.all_eq_true]
  intro i hi
  rw [get_hashes_add] at hi
  rw [add_bit_array]
  exact getD_setBits_of_mem _ _ _ hi
    (by rw [hlen]; exact get_hashes_lt digest f w hpos i hi)

theorem query_mono_add (digest : String → List ℕ) (f : BloomFilter)
    (w w2 : String) (h : query digest f w = true) :
    query digest (add digest f w2) w = true := by
  rw [query, List.all_eq_true] at h ⊢
  intro i hi
  rw [get_hashes_add] at hi
  rw [add_bit_array]
  exact getD_setBits_of_true _ _ _ (h i hi)

theorem query_addAll (digest : String → List ℕ) (f : BloomFilter)
    (w : String) (ws : List String) (h : query digest f w = true) :
    query digest (addAll digest f ws) w = true := by
  induction ws generalizing f with
  | nil => exact h
  | cons w2 ws ih => exact ih (add digest f w2) (query_mono_add digest f w w2 h)

/-- C1: for every string `w` inserted into a filter (whose bit array has the
declared length and whose bit count is positive, as `__init__` guarantees),
`query w` returns `true` immediately after the insert and continues to return
`true` after any number of subsequent inserts of any other strings: no false
negatives, and query results are monotone with respect to prior inserts. -/
theorem no_false_negatives (digest : String → List ℕ) (f : BloomFilter)
    (w : String) (ws : List String)
    (hlen : f.bit_array.length = f.num_bits) (hpos : 0 < f.num_bits) :
    query digest (add digest f w) w = true ∧
      query digest (addAll digest (add digest f w) ws) w = true := by
  have h0 := query_add_self digest f w hlen hpos
  exact ⟨h0, query_addAll digest (add digest f w) w ws h0⟩

/-- Concrete check of `no_false_negatives`: an eight-bit filter, the word
"abc" inserted, then two further words. -/
theorem no_false_negatives_witness :
    (sampleFilter.bit_array.length = sampleFilter.num_bits ∧
      0 < sampleFilter.num_bits) ∧
    (query sampleDigest (add sampleDigest sampleFilter "abc") "abc" = true ∧
      query sampleDigest
        (addAll sampleDigest (add sampleDigest sampleFilter "abc")
          ["wx", "yz"]) "abc" = true) :=
  ⟨⟨by decide, by decide⟩,
    no_false_negatives sampleDigest sampleFilter "abc" ["wx", "yz"]
      (by decide) (by decide)⟩

/-- C4: insert is idempotent — for every filter state and every string `w`,
inserting `w` twice yields exactly the same bit-array state (indeed the same
filter) as inserting `w` once. -/
theorem add_idempotent (digest : String → List ℕ) (f : BloomFilter)
    (w : String) :
    add digest (add digest f w) w = add digest f w := by
  show ({ f with bit_array := setBits (setBits f.bit_array
      (get_hashes digest f w)) (get_hashes digest f w) } : BloomFilter) = _
  rw [setBits_setBits]
  rfl

/-- C7: for every filter whose hash count is `0`, `query` returns `true` for
every string item, inserted or not, and `add` touches no bit positions,
leaving the filter unchanged. -/
theorem hash_count_zero_degenerate (digest : String → List ℕ)
    (f : BloomFilter) (w : String) (h : f.num_hash = 0) :
    query digest f w = true ∧ add digest f w = f := by
  have hg : get_hashes digest f w = [] := by simp [get_hashes, h]
  refine ⟨?_, ?_⟩
  · simp [query, hg]
  · show ({ f with
        bit_array := setBits f.bit_array (get_hashes digest f w) } :
      BloomFilter) = f
    rw [hg]
    rfl

/-- Concrete check of `hash_count_zero_degenerate` on a filter with hash
count zero and a word that was never inserted. -/
theorem hash_count_zero_degenerate_witness :
    sampleFilter0.num_hash = 0 ∧
      (query sampleDigest sampleFilter0 "zzz" = true ∧
        add sampleDigest sampleFilter0 "zzz" = sampleFilter0) :=
  ⟨rfl, hash_count_zero_degenerate sampleDigest sampleFilter0 "zzz" rfl⟩

end BloomFilter

namespace BloomFilter

theorem validate_num_words_ok_exists (v : PyVal) :
    (∃ n, validate_num_words v = .ok n) ↔ ∃ n : ℤ, v = .int n ∧ 0 < n := by
  cases v with
  | int z =>
    by_cases h : z ≤ 0
    · simp [validate_num_words, h]
    · simp [validate_num_words, h]
      omega
  | float q => simp [validate_num_words]
  | str s => simp [validate_num_words]
  | pyNone => simp [validate_num_words]

theorem validate_num_bits_ok_exists (v : PyVal) :
    (∃ m, validate_num_bits v = .ok m) ↔ ∃ m : ℤ, v = .int m ∧ 0 < m := by
  cases v with
  | int z =>
    by_cases h : z ≤ 0
    · simp [validate_num_bits, h]
    · simp [validate_num_bits, h]
      omega
  | float q => simp [validate_num_bits]
  | str s => simp [validate_num_bits]
  | pyNone => simp [validate_num_bits]

theorem validate_probability_ok_exists (v : PyVal) :
    (∃ q, validate_probability v = .ok q) ↔
      ((∃ z : ℤ, v = .int z ∧ 0 < (z : ℚ) ∧ (z : ℚ) < 1) ∨
        (∃ q : ℚ, v = .float q ∧ 0 < q ∧ q < 1)) := by
  cases v with
  | int z =>
    by_cases h : (z : ℚ) ≤ 0 ∨ 1 ≤ (z : ℚ)
    · simp only [validate_probability, if_pos h]
      constructor
      · rintro ⟨q, hq⟩
        cases hq
      · rintro (⟨z2, hz, h0, h1⟩ | ⟨q, hq, _, _⟩)
        · cases hz
          rcases h with h | h <;> linarith
        · cases hq
    · simp only [validate_probability, if_neg h]
      push_neg at h
      exact ⟨fun _ => .inl ⟨z, rfl, h.1, h.2⟩, fun _ => ⟨z, rfl⟩⟩
  | float q =>
    by_cases h : q ≤ 0 ∨ 1 ≤ q
    · simp only [validate_probability, if_pos h]
      constructor
      · rintro ⟨q2, hq⟩
        cases hq
      · rintro (⟨z2, hz, _, _⟩ | ⟨q2, hq, h0, h1⟩)
        · cases hz
        · cases hq
          rcases h with h | h <;> linarith
    · simp only [validate_probability, if_neg h]
      push_neg at h
      exact ⟨fun _ => .inr ⟨q, rfl, h.1, h.2⟩, fun _ => ⟨q, rfl⟩⟩
  | str s =>
    simp [validate_probability]
  | pyNone =>
    simp [validate_probability]

theorem validate_probability_ok_bounds (v : PyVal) (q : ℚ)
    (h : validate_probability v = .ok q) : 0 < q ∧ q < 1 := by
  cases v with
  | int z =>
    by_cases hc : (z : ℚ) ≤ 0 ∨ 1 ≤ (z : ℚ)
    · simp only [validate_probability, if_pos hc] at h
      cases h
    · simp only [validate_probability, if_neg hc] at h
      cases h
      push_neg at hc
      exact hc
  | float q2 =>
    by_cases hc : q2 ≤ 0 ∨ 1 ≤ q2
    · simp [validate_probability, hc] at h
    · simp only [validate_probability, if_neg hc] at h
      cases h
      push_neg at hc
      exact hc
  | str s => simp [validate_probability] at h
  | pyNone => simp [validate_probability] at h

theorem initV_ok_split (nw nb : PyVal) :
    (∃ f, initV nw nb = .ok f) ↔
      ((∃ n, validate_num_words nw = .ok n) ∧
        (∃ m, validate_num_bits nb = .ok m)) := by
  cases h1 : validate_num_words nw with
  | error e => simp [initV, h1]
  | ok n =>
    cases h2 : validate_num_bits nb with
    | error e => simp [initV, h1, h2]
    | ok m => simp [initV, h1, h2]

theorem initV_ok_iff (nw nb : PyVal) :
    (∃ f, initV nw nb = .ok f) ↔
      ((∃ n : ℤ, nw = .int n ∧ 0 < n) ∧ (∃ m : ℤ, nb = .int m ∧ 0 < m)) := by
  rw [initV_ok_split, validate_num_words_ok_exists, validate_num_bits_ok_exists]

end BloomFilter

namespace BloomFilter

theorem validate_num_words_ok_pos (v : PyVal) (n : ℤ)
    (h : validate_num_words v = .ok n) : 0 < n := by
  cases v with
  | int z =>
    by_cases hz : z ≤ 0
    · simp [validate_num_words, hz] at h
    · simp only [validate_num_words, if_neg hz] at h
      cases h
      omega
  | float q => simp [validate_num_words] at h
  | str s => simp [validate_num_words] at h
  | pyNone => simp [validate_num_words] at h

theorem log_two_sq_pos : 0 < (Real.log 2) ^ 2 :=
  pow_pos (Real.log_pos one_lt_two) 2

theorem calculate_num_bits_pos (n : ℕ) (p : ℝ) (hn : 0 < n) (hp0 : 0 < p)
    (hp1 : p < 1) : 0 < calculate_num_bits n p := by
  have hlog : Real.log p < 0 := Real.log_neg hp0 hp1
  have hn2 : (0 : ℝ) < n := by exact_mod_cast hn
  have hnum : 0 < -((n : ℝ) * Real.log p) := by nlinarith
  exact Int.ceil_pos.mpr (div_pos hnum log_two_sq_pos)

theorem with_fpcV_ok_iff (nw pv : PyVal) :
    (∃ f, with_fpcV nw pv = .ok f) ↔
      ((∃ n : ℤ, nw = .int n ∧ 0 < n) ∧
        ((∃ z : ℤ, pv = .int z ∧ 0 < (z : ℚ) ∧ (z : ℚ) < 1) ∨
          (∃ q : ℚ, pv = .float q ∧ 0 < q ∧ q < 1))) := by
  rw [← validate_num_words_ok_exists, ← validate_probability_ok_exists]
  cases h1 : validate_num_words nw with
  | error e => simp [with_fpcV, h1]
  | ok n =>
    cases h2 : validate_probability pv with
    | error e => simp [with_fpcV, h1, h2]
    | ok p =>
      simp only [with_fpcV, h1, h2]
      constructor
      · intro _
        exact ⟨⟨n, rfl⟩, ⟨p, rfl⟩⟩
      · intro _
        rw [initV_ok_iff]
        have hn := validate_num_words_ok_pos nw n h1
        have hp := validate_probability_ok_bounds pv p h2
        refine ⟨⟨n, rfl, hn⟩, ⟨_, rfl, ?_⟩⟩
        refine calculate_num_bits_pos n.toNat (p : ℝ) (by omega) ?_ ?_
        · exact_mod_cast hp.1
        · exact_mod_cast hp.2

/-- C8: every public operation fails exactly when its inputs are invalid —
non-integer or non-positive `num_words`, non-integer or non-positive
`num_bits`, non-numeric or out-of-range probability, or a non-string word
for `add`/`query`. The validators raise a `TypeError` or a `ValueError`
(the spec's single `InvalidArgument` kind) whose message distinguishes
"not an integer" from "not positive"; no other failure mode exists,
validation happens eagerly before any mutation, and the filter state is
unchanged whenever an error is raised. -/
theorem error_handling_exact :
    (∀ nw nb : PyVal, (∃ f, initV nw nb = .ok f) ↔
        ((∃ n : ℤ, nw = .int n ∧ 0 < n) ∧ (∃ m : ℤ, nb = .int m ∧ 0 < m))) ∧
    (∀ nw pv : PyVal, (∃ f, with_fpcV nw pv = .ok f) ↔
        ((∃ n : ℤ, nw = .int n ∧ 0 < n) ∧
          ((∃ z : ℤ, pv = .int z ∧ 0 < (z : ℚ) ∧ (z : ℚ) < 1) ∨
            (∃ q : ℚ, pv = .float q ∧ 0 < q ∧ q < 1)))) ∧
    (∀ (digest : String → List ℕ) (f : BloomFilter) (w : PyVal),
        ((addV digest f w).2 = .ok () ↔ ∃ s, w = .str s) ∧
        ((∃ b, (queryV digest f w).2 = .ok b) ↔ ∃ s, w = .str s) ∧
        (∀ e, (addV digest f w).2 = .error e → (addV digest f w).1 = f) ∧
        (queryV digest f w).1 = f) ∧
    (∀ z : ℤ, z ≤ 0 → validate_num_words (.int z) =
        .error (.valueError "Number of words should be positive")) ∧
    (∀ v : PyVal, (∀ z : ℤ, v ≠ .int z) → validate_num_words v =
        .error (.typeError "Number of words should be an integer")) ∧
    (∀ v : PyVal, (∀ s : String, v ≠ .str s) → validate_word v =
        .error (.typeError "Word should be a string")) := by
  refine ⟨initV_ok_iff, with_fpcV_ok_iff, ?_, ?_, ?_, ?_⟩
  · intro digest f w
    cases w <;> simp [addV, queryV, validate_word]
  · intro z hz
    simp [validate_num_words, hz]
  · intro v hv
    cases v with
    | int z => exact absurd rfl (hv z)
    | float q => rfl
    | str s => rfl
    | pyNone => rfl
  · intro v hv
    cases v with
    | int z => rfl
    | float q => rfl
    | str s => exact absurd rfl (hv s)
    | pyNone => rfl

/-- Concrete check of `error_handling_exact`: valid arguments `(5, 16)`
construct a filter, and `num_words = 0` raises the "not positive" reason. -/
theorem error_handling_exact_witness :
    (∃ f, initV (.int 5) (.int 16) = .ok f) ∧
      validate_num_words (.int 0) =
        .error (.valueError "Number of words should be positive") :=
  ⟨(error_handling_exact.1 (.int 5) (.int 16)).mpr
      ⟨⟨5, rfl, by decide⟩, ⟨16, rfl, by decide⟩⟩,
    error_handling_exact.2.2.2.1 0 (by decide)⟩

/-- C9 counterexample: the description string does not report the hash
count — two filters that differ only in `num_hash` produce the same
description, so the claim that the summary reports all four values is
false. -/
theorem strDesc_omits_num_hash :
    (⟨100, 400, 2, 0, []⟩ : BloomFilter).num_hash ≠
        (⟨100, 400, 7, 0, []⟩ : BloomFilter).num_hash ∧
      strDesc (fun _ => "0.1") ⟨100, 400, 2, 0, []⟩ =
        strDesc (fun _ => "0.1") ⟨100, 400, 7, 0, []⟩ :=
  ⟨by decide, rfl⟩

/-- C9 amended: the read-only description reports the capacity, the
bit-array length and the estimated false-positive rate, each equal to the
stored value, and depends on nothing else (in particular not on the hash
count, which is omitted). -/
theorem strDesc_reports (showFloat : ℝ → String) (f : BloomFilter) :
    strDesc showFloat f =
        "Word Capacity = " ++ toString f.num_words ++ "\n"
          ++ "Number of bits = " ++ toString f.num_bits ++ "\n"
          ++ "False positive probability = "
          ++ showFloat f.false_positive_prob ∧
      (∀ g : BloomFilter, f.num_words = g.num_words →
        f.num_bits = g.num_bits →
        f.false_positive_prob = g.false_positive_prob →
        strDesc showFloat f = strDesc showFloat g) := by
  refine ⟨rfl, ?_⟩
  intro g h1 h2 h3
  simp [strDesc, h1, h2, h3]

/-- Concrete check of `strDesc_reports` on `sampleFilter` and a filter with
the same reported fields but different hash count and bit array. -/
theorem strDesc_reports_witness :
    strDesc (fun _ => "0.5") sampleFilter =
      strDesc (fun _ => "0.5") ⟨100, 8, 3, 0, []⟩ :=
  (strDesc_reports (fun _ => "0.5") sampleFilter).2 ⟨100, 8, 3, 0, []⟩
    rfl rfl rfl

/-- C10: query is observation-only — for every filter state and every string
item, the state returned alongside the query result is the original filter,
with the bit array, bit count, hash count, capacity and false-positive
estimate all exactly as before the call. -/
theorem query_frame (digest : String → List ℕ) (f : BloomFilter)
    (s : String) :
    (queryV digest f (.str s)).1 = f ∧
      (queryV digest f (.str s)).1.bit_array = f.bit_array ∧
      (queryV digest f (.str s)).1.num_bits = f.num_bits ∧
      (queryV digest f (.str s)).1.num_hash = f.num_hash ∧
      (queryV digest f (.str s)).1.num_words = f.num_words ∧
      (queryV digest f (.str s)).1.false_positive_prob =
        f.false_positive_prob :=
  ⟨rfl, rfl, rfl, rfl, rfl, rfl⟩

end BloomFilter

namespace BloomFilter

/-- C2: for positive integers `n` and `m`, constructing by explicit size
stores `hash_count = floor((m/n) * ln 2)` — the truncation toward zero of
`int(...)` coincides with the floor because the truncated value is
non-negative — and `false_positive_estimate = exp(-(m/n) * ln(2)^2)`. -/
theorem construct_by_size_params (n m : ℕ) (_hn : 0 < n) (_hm : 0 < m) :
    ((init n m).num_hash : ℤ) = ⌊((m : ℝ) / (n : ℝ)) * Real.log 2⌋ ∧
      (init n m).false_positive_prob =
        Real.exp (-((m : ℝ) / (n : ℝ)) * (Real.log 2) ^ 2) := by
  have hk : 0 ≤ ((m : ℝ) / (n : ℝ)) * Real.log 2 :=
    mul_nonneg (div_nonneg (Nat.cast_nonneg m) (Nat.cast_nonneg n))
      (Real.log_nonneg one_le_two)
  constructor
  · show ((calculate_num_hash n m).toNat : ℤ) = _
    rw [calculate_num_hash, intTrunc, if_pos hk,
      Int.toNat_of_nonneg (Int.floor_nonneg.mpr hk)]
  · rfl

/-- Concrete check of `construct_by_size_params` at `(n, m) = (100, 400)`. -/
theorem construct_by_size_params_witness :
    (0 < 100 ∧ 0 < 400) ∧
      (((init 100 400).num_hash : ℤ) =
          ⌊((400 : ℝ) / (100 : ℝ)) * Real.log 2⌋ ∧
        (init 100 400).false_positive_prob =
          Real.exp (-((400 : ℝ) / (100 : ℝ)) * (Real.log 2) ^ 2)) :=
  ⟨⟨by decide, by decide⟩,
    construct_by_size_params 100 400 (by decide) (by decide)⟩

/-- C5: for a positive capacity and a probability in `(0,1)`,
construct-by-bound computes `bit_count = ceil(-(n * ln p) / ln(2)^2)`, that
bit count is positive (so the delegated validation passes), and the result
is exactly the filter that construct-by-size produces for it. -/
theorem construct_by_bound_delegates (n : ℕ) (p : ℝ) (hn : 0 < n)
    (hp0 : 0 < p) (hp1 : p < 1) :
    0 < calculate_num_bits n p ∧
      ((with_fpc n p).num_bits : ℤ) =
        ⌈(-((n : ℝ) * Real.log p)) / (Real.log 2) ^ 2⌉ ∧
      with_fpc n p = init n (calculate_num_bits n p).toNat := by
  have h1 := calculate_num_bits_pos n p hn hp0 hp1
  refine ⟨h1, ?_, rfl⟩
  show (((calculate_num_bits n p).toNat : ℤ)) = _
  rw [Int.toNat_of_nonneg (le_of_lt h1)]
  rfl

/-- Concrete check of `construct_by_bound_delegates` at
`(n, p) = (1000, 1/100)`. -/
theorem construct_by_bound_delegates_witness :
    ((0 : ℕ) < 1000 ∧ (0 : ℝ) < 1 / 100 ∧ (1 : ℝ) / 100 < 1) ∧
      (0 < calculate_num_bits 1000 (1 / 100) ∧
        ((with_fpc 1000 (1 / 100)).num_bits : ℤ) =
          ⌈(-((1000 : ℝ) * Real.log (1 / 100))) / (Real.log 2) ^ 2⌉ ∧
        with_fpc 1000 (1 / 100) =
          init 1000 (calculate_num_bits 1000 (1 / 100)).toNat) :=
  ⟨⟨by decide, by norm_num, by norm_num⟩,
    construct_by_bound_delegates 1000 (1 / 100) (by decide) (by norm_num)
      (by norm_num)⟩

/-- C6: the filter produced by construct-by-bound with `(n, p)` has
`false_positive_estimate ≤ p` (exactly, in the real-number model of the
float arithmetic): the ceiling only enlarges the bit count, and the
estimate is monotonically decreasing in it. -/
theorem construct_by_bound_meets_bound (n : ℕ) (p : ℝ) (hn : 0 < n)
    (hp0 : 0 < p) (hp1 : p < 1) :
    (with_fpc n p).false_positive_prob ≤ p := by
  have hn2 : (0 : ℝ) < n := by exact_mod_cast hn
  have hlogp : Real.log p < 0 := Real.log_neg hp0 hp1
  have hl2 : 0 < (Real.log 2) ^ 2 := log_two_sq_pos
  have hgoal : (with_fpc n p).false_positive_prob =
      Real.exp (-(((calculate_num_bits n p).toNat : ℝ) / (n : ℝ)) *
        (Real.log 2) ^ 2) := rfl
  rw [hgoal]
  have hceil := calculate_num_bits_pos n p hn hp0 hp1
  have hmx : (-((n : ℝ) * Real.log p)) / (Real.log 2) ^ 2 ≤
      (((calculate_num_bits n p).toNat : ℝ)) := by
    have hle : (-((n : ℝ) * Real.log p)) / (Real.log 2) ^ 2 ≤
        ((calculate_num_bits n p : ℤ) : ℝ) := Int.le_ceil _
    have h2 : (((calculate_num_bits n p).toNat : ℝ)) =
        ((calculate_num_bits n p : ℤ) : ℝ) := by
      exact_mod_cast Int.toNat_of_nonneg (le_of_lt hceil)
    rw [h2]
    exact hle
  have h5 : ((-((n : ℝ) * Real.log p)) / (Real.log 2) ^ 2) *
      (Real.log 2) ^ 2 = -((n : ℝ) * Real.log p) :=
    div_mul_cancel₀ _ (ne_of_gt hl2)
  have h6 : -((n : ℝ) * Real.log p) ≤
      (((calculate_num_bits n p).toNat : ℝ)) * (Real.log 2) ^ 2 := by
    nlinarith [hmx, hl2, h5]
  have h7 : -(((calculate_num_bits n p).toNat : ℝ) / (n : ℝ)) *
      (Real.log 2) ^ 2 ≤ Real.log p := by
    rw [show -(((calculate_num_bits n p).toNat : ℝ) / (n : ℝ)) *
        (Real.log 2) ^ 2 =
        (-(((calculate_num_bits n p).toNat : ℝ) * (Real.log 2) ^ 2)) /
          (n : ℝ) by ring, div_le_iff₀ hn2]
    nlinarith [h6]
  exact le_trans (Real.exp_le_exp.mpr h7) (le_of_eq (Real.exp_log hp0))

/-- Concrete check of `construct_by_bound_meets_bound` at
`(n, p) = (100, 1/2)`. -/
theorem construct_by_bound_meets_bound_witness :
    ((0 : ℕ) < 100 ∧ (0 : ℝ) < 1 / 2 ∧ (1 : ℝ) / 2 < 1) ∧
      (with_fpc 100 (1 / 2)).false_positive_prob ≤ 1 / 2 :=
  ⟨⟨by decide, by norm_num, by norm_num⟩,
    construct_by_bound_meets_bound 100 (1 / 2) (by decide) (by norm_num)
      (by norm_num)⟩

/-- C3: the code does not take `h1` from the first half of the digest. For
the word "hello" (md5 hex digest `5d41402abc4b2a76b9719d911017c592`), the
`h1` computed by `_get_hashes` — `int(hexdigest[:15], 16)`, only 15 of the
32 hex digits, skipping the digit at index 15 — differs from the value of
the first half (first 16 digits), and on a two-bit filter with one hash
function the produced bit positions differ as well. -/
theorem get_hashes_h1_not_first_half :
    codeH1 md5hello ≠ specFirstHalf md5hello ∧
      get_hashes (fun _ => md5hello) ⟨1, 2, 1, 0, [false, false]⟩ "hello" ≠
        spec_get_hashes (fun _ => md5hello) ⟨1, 2, 1, 0, [false, false]⟩
          "hello" :=
  ⟨by decide, by decide⟩

end BloomFilter
